import Mathlib

/-!
Verification of the vector-store layer of the invoice-reimbursement system
(`app/vector_store.py` and the relevant parts of `app/api.py`).

Modelling conventions:
* Python strings are Lean `String`s; `str.lower()` lowercases each
  character (the strings of interest are ASCII, where this is exact).
* Python dicts with string values (the metadata records, the filter
  mapping, the records produced by `process_invoice`) are association
  lists `List (String × String)`; `k in d` is `(d.lookup k).isSome` and
  `d[k]` / `d.get(k, default)` are `d.lookup k` with `Option.getD`.
* Embedding vectors are `List ℤ` (exact arithmetic in place of float32;
  the claims proved here concern ordering and structure, not the numeric
  type), and the sentence-transformer embedder is an explicit function
  parameter `e : String → List ℤ` since the model itself is external.
* The process-wide state is `SysState`: the in-memory FAISS index and
  metadata list (`mem`) and their persisted on-disk copies (`disk`).
* A Python call that may raise inside the append loop is modelled in an
  error-passing style: the loop returns the mutated state together with
  `Option String`, `some msg` meaning an exception propagated.
-/

namespace InvStore

/-- Python's `str.lower()`, on ASCII input: lowercase each character. -/
def strLower (s : String) : String := String.mk (s.toList.map Char.toLower)

/-- Python's substring test `needle in hay`. -/
def containsSub (hay needle : String) : Bool :=
  decide (needle.toList <:+: hay.toList)

/-- A metadata record / Python dict with string values, as an association
list in insertion order. -/
abbrev Meta := List (String × String)

/-- One invoice analysis as handed to `add_invoice_analysis_to_vector_db`:
the six keys the API layer always populates. -/
structure Analysis where
  invoice_id : String
  status : String
  reason : String
  employee_name : String
  date : String
  full_text : String
deriving DecidableEq, Repr, Inhabited

/-- The index/metadata pair: one embedding vector per metadata record. -/
structure VectorStore where
  index : List (List ℤ)
  metadata : List Meta
deriving DecidableEq, Repr, Inhabited

/-- In-memory globals (`faiss_index`, `metadata_list`) together with the
persisted artifacts (`faiss_index.bin`, `faiss_metadata.pkl`). -/
structure SysState where
  mem : VectorStore
  disk : VectorStore
deriving DecidableEq, Repr, Inhabited

/-- The freshly initialized state: empty index, empty metadata, nothing
persisted. -/
def emptySys : SysState := ⟨⟨[], []⟩, ⟨[], []⟩⟩

/-- The `text_to_embed` string of `add_invoice_analysis_to_vector_db` (line 35):
`analysis["full_text"] + "\nStatus: " + analysis["status"] + "\nReason: " + analysis["reason"]`. -/
def textToEmbed (a : Analysis) : String :=
  a.full_text ++ ("\nStatus: ") ++ a.status ++ ("\nReason: ") ++ a.reason

/-- The metadata dict appended for one analysis (lines 39-45). -/
def metaOfAnalysis (a : Analysis) : Meta :=
  [(("invoice_id"), a.invoice_id), (("status"), a.status), (("reason"), a.reason),
   (("employee_name"), a.employee_name), (("date"), a.date)]

/-- The `for analysis in analyses` loop of `add_invoice_analysis_to_vector_db`
(lines 33-45): embed each record and append vector and metadata in lockstep.
An embedding failure raises, leaving the store as mutated so far; the
exception message is returned alongside that state. -/
def addLoop (e : String → Except String (List ℤ)) :
    VectorStore → List Analysis → VectorStore × Option String
  | st, [] => (st, none)
  | st, a :: rest =>
    match e (textToEmbed a) with
    | Except.error msg => (st, some msg)
    | Except.ok v =>
        addLoop e ⟨st.index ++ [v], st.metadata ++ [metaOfAnalysis a]⟩ rest

/-- The function `add_invoice_analysis_to_vector_db` (lines 26-49): run the append loop
on the in-memory state; only when the whole batch succeeded are the index
and metadata persisted (lines 47-49). An exception propagates before the
persist step runs. -/
def addInvoiceAnalysisToVectorDb (e : String → Except String (List ℤ))
    (st : SysState) (analyses : List Analysis) : SysState × Option String :=
  match addLoop e st.mem analyses with
  | (mem, some msg) => (⟨mem, st.disk⟩, some msg)
  | (mem, none) => (⟨mem, mem⟩, none)

/-- An embedder that never fails, as an `Except`-valued one. -/
def embedOk (e : String → List ℤ) : String → Except String (List ℤ) :=
  fun s => Except.ok (e s)

/-- Fold a sequence of successful append calls from the fresh state. -/
def runAppends (e : String → List ℤ) (batches : List (List Analysis)) : SysState :=
  batches.foldl (fun st b => (addInvoiceAnalysisToVectorDb (embedOk e) st b).1) emptySys

/-- The `match` closure of `search_invoices` (lines 61-66): a record fails
only when some filter key is present in it with a value that does not
contain the filter value case-insensitively. -/
def matchMeta (filters : List (String × String)) (meta : Meta) : Bool :=
  filters.all fun kv =>
    match meta.lookup kv.1 with
    | none => true
    | some v => containsSub (strLower v) (strLower kv.2)

/-- The `filtered_indices` list of `search_invoices` (lines 59-67): all positions
when the filter dict is empty (falsy), otherwise the positions whose
record matches. -/
def filteredIndicesOf (st : VectorStore) (filters : List (String × String)) : List Nat :=
  if filters.isEmpty then List.range st.metadata.length
  else ((st.metadata.enum.filter fun p => matchMeta filters p.2).map Prod.fst)

/-- Squared Euclidean distance between two vectors (the L2 metric of
`faiss.IndexFlatL2`, which reports squared distances). -/
def sqDist (u v : List ℤ) : ℤ :=
  (((u.zip v).map fun p => (p.1 - p.2) * (p.1 - p.2)).sum)

/-- Comparison used by exact k-NN: ascending distance, ties by position. -/
def knnRel (a b : Nat × ℤ) : Prop :=
  a.2 < b.2 ∨ (a.2 = b.2 ∧ a.1 ≤ b.1)

instance : DecidableRel knnRel := fun a b => by
  unfold knnRel; infer_instance

/-- Modelled from the spec: `faiss.IndexFlatL2.search` over the ephemeral
index (lines 78-80) — exact k-nearest-neighbor search returning, for the
query vector, the `min k n` stored vectors of smallest squared Euclidean
distance as `(position, distance)` pairs, ascending by distance with ties
broken by position. The faiss library itself is not part of this
repository, so its contract is taken from the spec (§4.2). -/
def knnSearch (vecs : List (List ℤ)) (q : List ℤ) (k : Nat) : List (Nat × ℤ) :=
  let scored := (List.range vecs.length).map fun i => (i, sqDist q (vecs.getD i []))
  (scored.insertionSort knnRel).take k

/-- The body of `search_invoices` (lines 51-85), producing `(distance, real index)`
pairs: the guard clauses for the empty store and the empty filtered set,
the reconstruction of the matching subset, the temporary exact index, and
the mapping of temporary positions back through `filtered_indices`. -/
def searchIndices (e : String → List ℤ) (st : VectorStore) (query : String)
    (top_k : Nat) (filters : List (String × String)) : List (ℤ × Nat) :=
  if st.metadata.length = 0 then []
  else if (filteredIndicesOf st filters).isEmpty then []
  else
    (knnSearch ((filteredIndicesOf st filters).map fun i => st.index.getD i [])
        (e query) (min top_k (filteredIndicesOf st filters).length)).map
      fun p => (p.2, (filteredIndicesOf st filters).getD p.1 0)

/-- The final result list of `search_invoices` (lines 81-85): `(score,
metadata_list[real_idx])` pairs. -/
def searchInvoices (e : String → List ℤ) (st : VectorStore) (query : String)
    (top_k : Nat) (filters : List (String × String)) : List (ℤ × Meta) :=
  (searchIndices e st query top_k filters).map fun p => (p.1, st.metadata.getD p.2 [])

/-- Number of records of the store matching the filters. -/
def matchCount (st : VectorStore) (filters : List (String × String)) : Nat :=
  (st.metadata.filter fun m => matchMeta filters m).length

/-! ### Filter extraction (`extract_metadata_filters`, lines 87-113) -/

/-- The `status_keywords` dict (lines 94-100), in its insertion order,
which is the iteration order of the `for k, v in status_keywords.items()`
loop. -/
def statusKeywords : List (String × String) :=
  [(("declined"), ("Declined")),
   (("reimbursed"), ("Fully Reimbursed")),
   (("partial"), ("Partially Reimbursed")),
   (("partially reimbursed"), ("Partially Reimbursed")),
   (("fully reimbursed"), ("Fully Reimbursed"))]

/-- The keyword loop (lines 101-104): first keyword contained in the
lowercased query wins (`break`). -/
def findStatus (query : String) : Option String :=
  (statusKeywords.find? fun kv => containsSub (strLower query) kv.1).map Prod.snd

/-- The class `[A-Z]` of the Python regex (ASCII uppercase). -/
def isUpperAZ (c : Char) : Bool := ('A' ≤ c) && (c ≤ 'Z')

/-- The class `[a-z]` of the Python regex (ASCII lowercase). -/
def isLowerAZ (c : Char) : Bool := ('a' ≤ c) && (c ≤ 'z')

/-- Maximal (greedy) run of `[a-z]` characters; returns the run and the
rest of the input. -/
def takeLowerRun : List Char → List Char × List Char
  | [] => ([], [])
  | c :: cs =>
    if isLowerAZ c then
      let p := takeLowerRun cs
      (c :: p.1, p.2)
    else ([], c :: cs)

/-- Match `[A-Z][a-z]+` at the head of the input (greedy, as in the regex:
nothing follows the `+` inside the word, so maximal munch is exact). -/
def matchWord : List Char → Option (List Char × List Char)
  | [] => none
  | c :: cs =>
    if isUpperAZ c then
      let p := takeLowerRun cs
      if p.1.isEmpty then none else some (c :: p.1, p.2)
    else none

theorem takeLowerRun_length (cs : List Char) : (takeLowerRun cs).2.length ≤ cs.length := by
  induction cs with
  | nil => simp [takeLowerRun]
  | cons c cs ih =>
    simp only [takeLowerRun]
    split
    · simpa using Nat.le_succ_of_le ih
    · simp

theorem matchWord_length {cs w rest : List Char} (h : matchWord cs = some (w, rest)) :
    rest.length < cs.length := by
  cases cs with
  | nil => simp [matchWord] at h
  | cons c cs =>
    simp only [matchWord] at h
    split at h
    · split at h
      · simp at h
      · simp only [Option.some.injEq, Prod.mk.injEq] at h
        have := takeLowerRun_length cs
        simp [← h.2]
        omega
    · simp at h

/-- Greedy repetition `(?: [A-Z][a-z]+)*` after a first word: extend the
captured text with further `" Word"` groups as long as they match. Each
iteration consumes at least one character of the input, so an explicit
bound equal to the input length (supplied by `extendWords`) keeps the
recursion structural; the fuel-exhausted case is unreachable. -/
def extendWordsF : Nat → List Char → List Char → List Char × List Char
  | _, acc, [] => (acc, [])
  | 0, acc, cs => (acc, cs)
  | fuel + 1, acc, c :: cs =>
    if c = ' ' then
      match matchWord cs with
      | some (w, rest) => extendWordsF fuel (acc ++ [c] ++ w) rest
      | none => (acc, c :: cs)
    else (acc, c :: cs)

/-- Greedy extension starting with enough fuel for the whole input. -/
def extendWords (acc : List Char) (cs : List Char) : List Char × List Char :=
  extendWordsF cs.length acc cs

/-- Try the name pattern `(?:for|by) ([A-Z][a-z]+(?: [A-Z][a-z]+)*)` at
the current position; on success return the captured group. -/
def matchNameAt (cs : List Char) : Option String :=
  let afterKw : Option (List Char) :=
    if (("for ").toList.isPrefixOf cs) then some (cs.drop 4)
    else if (("by ").toList.isPrefixOf cs) then some (cs.drop 3)
    else none
  match afterKw with
  | none => none
  | some cs2 =>
    match matchWord cs2 with
    | none => none
    | some (w, rest) => some (String.mk (extendWords w rest).1)

/-- The `re.search` scan for the name pattern (line 106): leftmost starting
position wins. -/
def findNameFrom : List Char → Option String
  | [] => none
  | c :: cs =>
    match matchNameAt (c :: cs) with
    | some s => some s
    | none => findNameFrom cs

/-- Name extraction on the original (not lowercased) query. -/
def findName (query : String) : Option String := findNameFrom query.toList

/-- The digit class `\d` of the Python regex, on ASCII input. -/
def isDigitCh (c : Char) : Bool := c.isDigit

/-- The separator class of the date regex: a dash or a slash. -/
def isSep (c : Char) : Bool := (c = '-') || (c = '/')

/-- Match the date pattern of line 110 (four digits, a separator class
accepting dash or slash, two digits, the same separator class again, two
digits) at the current position. The two separator classes are matched
independently, so the separators need not agree. -/
def matchDateAt : List Char → Option String
  | c1 :: c2 :: c3 :: c4 :: s1 :: c5 :: c6 :: s2 :: c7 :: c8 :: _ =>
    if isDigitCh c1 && isDigitCh c2 && isDigitCh c3 && isDigitCh c4 && isSep s1 &&
       isDigitCh c5 && isDigitCh c6 && isSep s2 && isDigitCh c7 && isDigitCh c8 then
      some (String.mk [c1, c2, c3, c4, s1, c5, c6, s2, c7, c8])
    else none
  | _ => none

/-- The `re.search` scan for the date pattern: leftmost starting position wins. -/
def findDateFrom : List Char → Option String
  | [] => none
  | c :: cs =>
    match matchDateAt (c :: cs) with
    | some d => some d
    | none => findDateFrom cs

/-- Date extraction on the original query (lines 110-112). -/
def findDate (query : String) : Option String := findDateFrom query.toList

/-- The function `extract_metadata_filters` (lines 87-113): the returned dict, with
keys in their insertion order `status`, `employee_name`, `date`. -/
def extractMetadataFilters (query : String) : List (String × String) :=
  (match findStatus query with
   | some v => [(("status"), v)]
   | none => []) ++
  (match findName query with
   | some v => [(("employee_name"), v)]
   | none => []) ++
  (match findDate query with
   | some v => [(("date"), v)]
   | none => [])

/-- Modelled from the spec: the date-token shape the spec claims —
`YYYY-MM-DD` or `YYYY/MM/DD`, i.e. four digits, a separator, two digits,
the *same-style* separator, two digits. Stated from the spec's words for
comparison with the scanner the code actually uses. -/
def specSameStyleDateAt : List Char → Bool
  | c1 :: c2 :: c3 :: c4 :: s1 :: c5 :: c6 :: s2 :: c7 :: c8 :: _ =>
    isDigitCh c1 && isDigitCh c2 && isDigitCh c3 && isDigitCh c4 && isSep s1 &&
      isDigitCh c5 && isDigitCh c6 && (s2 = s1) && isDigitCh c7 && isDigitCh c8
  | _ => false

/-- Whether the query contains a same-style date token anywhere. -/
def specHasSameStyleDate (query : String) : Bool :=
  query.toList.tails.any specSameStyleDateAt

/-! ### The API layer (`api.py`): `process_invoice` and the success filter -/

/-- The three-backtick fence marker of the cleaning regex on line 39. -/
def fenceMarker : List Char := ("```").toList

/-- The fence marker with its optional language tag. -/
def fenceMarkerJson : List Char := ("```json").toList

/-- Whether the scan position is at a line start (`^` with `re.MULTILINE`):
at the start of the string or right after a newline of the *original*
string; `prev` is the original character before the position. -/
def atLineStart (prev : Option Char) : Bool :=
  prev = none || prev = some ('\n')

/-- The `re.sub` of line 39 with pattern alternatives tried in order at each
position of the original string: at a line start, a fence optionally
followed by its `json` tag; otherwise a fence at a line end (`$` with
`re.MULTILINE`: end of string or just before a newline). Matches are
removed; scanning resumes after the matched text.
Each iteration consumes at least one character, so an explicit bound
equal to the input length (supplied by `stripFences`) keeps the recursion
structural; the fuel-exhausted case is unreachable. -/
def stripFencesF : Nat → Option Char → List Char → List Char
  | _, _, [] => []
  | 0, _, cs => cs
  | fuel + 1, prev, c :: rest =>
    if atLineStart prev && fenceMarkerJson.isPrefixOf (c :: rest) then
      stripFencesF fuel ((c :: rest).take 7).getLast? ((c :: rest).drop 7)
    else if atLineStart prev && fenceMarker.isPrefixOf (c :: rest) then
      stripFencesF fuel ((c :: rest).take 3).getLast? ((c :: rest).drop 3)
    else if fenceMarker.isPrefixOf (c :: rest) &&
        ((rest.drop 2).isEmpty || (rest.drop 2).head? = some ('\n')) then
      stripFencesF fuel ((c :: rest).take 3).getLast? ((c :: rest).drop 3)
    else c :: stripFencesF fuel (some c) rest

/-- The fence-stripping scan over the whole string. -/
def stripFences (prev : Option Char) (cs : List Char) : List Char :=
  stripFencesF cs.length prev cs

/-- Python's `str.startswith(pre)`. -/
def pyStartsWith (s pre : String) : Bool := pre.toList.isPrefixOf s.toList

/-- Python's whitespace class for `str.strip()` (ASCII). -/
def isPyWhitespace (c : Char) : Bool :=
  (c = ' ') || (c = '\t') || (c = '\n') || (c = '\r') || (c = '\x0b') || (c = '\x0c')

/-- Python's `str.strip()`: drop whitespace from both ends. -/
def pyStrip (s : String) : String :=
  String.mk
    (((s.toList.dropWhile isPyWhitespace).reverse.dropWhile isPyWhitespace).reverse)

/-- The `cleaned` string of line 39: strip the code-fence markers, then `.strip()`. -/
def cleanAnalysis (analysis : String) : String :=
  pyStrip (String.mk (stripFences none analysis.toList))

/-- The function `process_invoice` (api.py lines 31-50). The Gemini call and
`json.loads` are external collaborators, passed as parameters: `analyze`
maps (policy text, invoice text, employee name) to the LLM output string,
and `parseJson` returns the parsed object as a string-valued dict, or
`none` when parsing raises. `todayStr` is `str(date.today())`. The result
is the returned dict. -/
def processInvoice (analyze : String → String → String → String)
    (parseJson : String → Option (List (String × String)))
    (todayStr policy_text fname text employee_name : String) :
    List (String × String) :=
  if pyStartsWith text ("[ERROR") then
    [(("invoice_id"), fname), (("error"), text)]
  else
    if pyStartsWith (analyze policy_text text employee_name) ("[ERROR") then
      [(("invoice_id"), fname), (("error"), analyze policy_text text employee_name)]
    else
      match parseJson (cleanAnalysis (analyze policy_text text employee_name)) with
      | some obj =>
        [(("invoice_id"), fname),
         (("status"), ((obj.lookup ("status")).getD (""))),
         (("reason"), ((obj.lookup ("reason")).getD (""))),
         (("employee_name"), ((obj.lookup ("employee_name")).getD employee_name)),
         (("date"), todayStr),
         (("full_text"), text)]
      | none => [(("invoice_id"), fname), (("error"), ("Failed to parse LLM output"))]

/-- The success filter of `analyze_invoices` (line 87):
`not a.get("error")` keeps a record whose `error` key is absent or falsy
(the empty string). Only the kept records are passed to
`add_invoice_analysis_to_vector_db` (lines 87-89). -/
def isSuccessful (a : List (String × String)) : Bool :=
  match a.lookup ("error") with
  | none => true
  | some s => s.isEmpty

end InvStore

namespace InvStore

/-! ### Helper lemmas -/

theorem lookup_extract_status (q : String) :
    (extractMetadataFilters q).lookup ("status") = findStatus q := by
  unfold extractMetadataFilters
  cases findStatus q <;> cases findName q <;> cases findDate q <;> simp [List.lookup]

theorem lookup_extract_date (q : String) :
    (extractMetadataFilters q).lookup ("date") = findDate q := by
  unfold extractMetadataFilters
  cases findStatus q <;> cases findName q <;> cases findDate q <;> simp [List.lookup]

theorem matchMeta_nil (m : Meta) : matchMeta [] m = true := rfl

theorem matchMeta_of_absent {f : List (String × String)} {m : Meta}
    (h : ∀ kv ∈ f, m.lookup kv.1 = none) : matchMeta f m = true := by
  unfold matchMeta
  rw [List.all_eq_true]
  intro kv hkv
  rw [h kv hkv]

theorem snd_mem_of_mem_enum {α : Type} {l : List α} {p : Nat × α} (h : p ∈ l.enum) :
    p.2 ∈ l := by
  rw [List.mem_enum_iff_getElem?] at h
  exact List.getElem?_mem h

instance : IsTrans (Nat × ℤ) knnRel := by
  constructor
  intro a b c hab hbc
  unfold knnRel at *
  rcases hab with h1 | ⟨h1, h1b⟩ <;> rcases hbc with h2 | ⟨h2, h2b⟩
  · exact Or.inl (lt_trans h1 h2)
  · exact Or.inl (h2 ▸ h1)
  · exact Or.inl (h1 ▸ h2)
  · exact Or.inr ⟨h1.trans h2, le_trans h1b h2b⟩

instance : IsTotal (Nat × ℤ) knnRel := by
  constructor
  intro a b
  unfold knnRel
  rcases lt_trichotomy a.2 b.2 with h | h | h
  · exact Or.inl (Or.inl h)
  · rcases Nat.le_total a.1 b.1 with h2 | h2
    · exact Or.inl (Or.inr ⟨h, h2⟩)
    · exact Or.inr (Or.inr ⟨h.symm, h2⟩)
  · exact Or.inr (Or.inl h)

theorem knnSearch_length (vecs : List (List ℤ)) (q : List ℤ) (k : Nat) :
    (knnSearch vecs q k).length = min k vecs.length := by
  unfold knnSearch
  rw [List.length_take, (List.perm_insertionSort knnRel _).length_eq,
    List.length_map, List.length_range]

theorem mem_knnSearch {vecs : List (List ℤ)} {q : List ℤ} {k : Nat} {p : Nat × ℤ}
    (h : p ∈ knnSearch vecs q k) :
    p.1 < vecs.length ∧ p.2 = sqDist q (vecs.getD p.1 []) := by
  unfold knnSearch at h
  have h2 := (List.perm_insertionSort knnRel _).mem_iff.mp (List.mem_of_mem_take h)
  obtain ⟨i, hi, rfl⟩ := List.mem_map.mp h2
  rw [List.mem_range] at hi
  exact ⟨hi, rfl⟩

theorem pairwise_knnSearch (vecs : List (List ℤ)) (q : List ℤ) (k : Nat) :
    (knnSearch vecs q k).Pairwise
      (fun a b => a.2 < b.2 ∨ (a.2 = b.2 ∧ a.1 < b.1)) := by
  unfold knnSearch
  apply List.Pairwise.sublist (List.take_sublist _ _)
  have hsorted : List.Pairwise knnRel
      (List.insertionSort knnRel
        ((List.range vecs.length).map fun i => (i, sqDist q (vecs.getD i [])))) :=
    List.sorted_insertionSort knnRel _
  have hmapfst :
      ((List.range vecs.length).map fun i : Nat => (i, sqDist q (vecs.getD i []))).map
        Prod.fst = List.range vecs.length := by
    rw [List.map_map]
    exact List.map_id _
  have hnodup :
      ((List.insertionSort knnRel
        ((List.range vecs.length).map fun i => (i, sqDist q (vecs.getD i [])))).map
          Prod.fst).Nodup := by
    rw [((List.perm_insertionSort knnRel _).map Prod.fst).nodup_iff, hmapfst]
    exact List.nodup_range _
  have hne : List.Pairwise (fun a b : Nat × ℤ => a.1 ≠ b.1)
      (List.insertionSort knnRel
        ((List.range vecs.length).map fun i => (i, sqDist q (vecs.getD i [])))) := by
    unfold List.Nodup at hnodup
    rw [List.pairwise_map] at hnodup
    exact hnodup
  refine (hsorted.and hne).imp ?h
  rintro a b ⟨hr | ⟨heq, hle⟩, hneq⟩
  · exact Or.inl hr
  · exact Or.inr ⟨heq, lt_of_le_of_ne hle hneq⟩

theorem pairwise_enumFrom_fst {α : Type} :
    ∀ (l : List α) (n : Nat), (List.enumFrom n l).Pairwise (fun a b => a.1 < b.1)
  | [], _ => List.Pairwise.nil
  | a :: l, n => by
    rw [List.enumFrom_cons]
    constructor
    · rintro ⟨i, v⟩ hx
      have := (List.mk_mem_enumFrom_iff_le_and_getElem?_sub.mp hx).1
      omega
    · exact pairwise_enumFrom_fst l (n + 1)

theorem pairwise_filteredIndices (st : VectorStore) (f : List (String × String)) :
    (filteredIndicesOf st f).Pairwise (· < ·) := by
  unfold filteredIndicesOf
  split
  · exact List.pairwise_lt_range _
  · rw [List.pairwise_map]
    exact (pairwise_enumFrom_fst st.metadata 0).filter _

theorem mem_filteredIndices {st : VectorStore} {f : List (String × String)} {i : Nat}
    (h : i ∈ filteredIndicesOf st f) :
    i < st.metadata.length ∧ matchMeta f (st.metadata.getD i []) = true := by
  unfold filteredIndicesOf at h
  split at h
  · refine ⟨List.mem_range.mp h, ?m⟩
    rename_i hEmpty
    rw [List.isEmpty_iff.mp hEmpty]
    exact matchMeta_nil _
  · obtain ⟨p, hp, rfl⟩ := List.mem_map.mp h
    obtain ⟨h1, h2⟩ := List.mem_filter.mp hp
    rw [List.mem_enum_iff_getElem?] at h1
    obtain ⟨hlt, hval⟩ := List.getElem?_eq_some.mp h1
    constructor
    · exact hlt
    · rw [List.getD_eq_getElem?_getD, h1]
      exact h2

theorem length_enumFrom_filter {α : Type} (p : α → Bool) :
    ∀ (l : List α) (n : Nat),
      ((List.enumFrom n l).filter fun q => p q.2).length = (l.filter p).length
  | [], _ => rfl
  | a :: l, n => by
    rw [List.enumFrom_cons]
    by_cases h : p a
    · simp [List.filter_cons, h, length_enumFrom_filter p l (n + 1)]
    · simp [List.filter_cons, h, length_enumFrom_filter p l (n + 1)]

theorem length_filteredIndices (st : VectorStore) (f : List (String × String)) :
    (filteredIndicesOf st f).length = matchCount st f := by
  unfold filteredIndicesOf matchCount
  split
  · rename_i hEmpty
    rw [List.isEmpty_iff.mp hEmpty, List.length_range]
    rw [List.filter_eq_self.mpr fun m _ => matchMeta_nil m]
  · rw [List.length_map]
    exact length_enumFrom_filter _ st.metadata 0

theorem getD_lt_of_pairwise {l : List Nat} (hp : l.Pairwise (· < ·)) {i j : Nat}
    (hij : i < j) (hj : j < l.length) : l.getD i 0 < l.getD j 0 := by
  have hi : i < l.length := lt_trans hij hj
  rw [List.getD_eq_getElem _ _ hi, List.getD_eq_getElem _ _ hj]
  exact List.pairwise_iff_getElem.mp hp i j hi hj hij

theorem getD_map_vec {l : List Nat} {g : Nat → List ℤ} {n : Nat} (h : n < l.length) :
    (l.map g).getD n [] = g (l.getD n 0) := by
  rw [List.getD_eq_getElem _ _ (by simpa using h), List.getElem_map,
    List.getD_eq_getElem _ _ h]

theorem searchIndices_mem {e : String → List ℤ} {st : VectorStore} {q : String}
    {k : Nat} {f : List (String × String)} {p : ℤ × Nat}
    (h : p ∈ searchIndices e st q k f) :
    p.2 ∈ filteredIndicesOf st f ∧ p.1 = sqDist (e q) (st.index.getD p.2 []) := by
  unfold searchIndices at h
  split at h
  · simp at h
  · split at h
    · simp at h
    · obtain ⟨a, ha, rfl⟩ := List.mem_map.mp h
      obtain ⟨halt, haeq⟩ := mem_knnSearch ha
      rw [List.length_map] at halt
      constructor
      · rw [List.getD_eq_getElem _ _ halt]
        exact List.getElem_mem _
      · rw [haeq, getD_map_vec halt]

theorem searchIndices_pairwise (e : String → List ℤ) (st : VectorStore) (q : String)
    (k : Nat) (f : List (String × String)) :
    (searchIndices e st q k f).Pairwise
      (fun x y => x.1 < y.1 ∨ (x.1 = y.1 ∧ x.2 < y.2)) := by
  unfold searchIndices
  split
  · exact List.Pairwise.nil
  · split
    · exact List.Pairwise.nil
    · rw [List.pairwise_map]
      refine List.Pairwise.imp_of_mem ?h (pairwise_knnSearch _ _ _)
      intro a b ha hb hab
      rcases hab with hlt | ⟨heq, hlt⟩
      · exact Or.inl hlt
      · refine Or.inr ⟨heq, ?g⟩
        have hb2 := (mem_knnSearch hb).1
        rw [List.length_map] at hb2
        exact getD_lt_of_pairwise (pairwise_filteredIndices st f) hlt hb2

end InvStore

namespace InvStore

theorem addLoop_ok (e : String → List ℤ) :
    ∀ (as : List Analysis) (st : VectorStore),
      addLoop (embedOk e) st as =
        (⟨st.index ++ as.map (fun a => e (textToEmbed a)),
          st.metadata ++ as.map metaOfAnalysis⟩, none)
  | [], st => by simp [addLoop]
  | a :: as, st => by
    rw [addLoop]
    simp only [embedOk]
    rw [addLoop_ok e as]
    simp [List.append_assoc]

theorem foldAdd_mem (e : String → List ℤ) :
    ∀ (bs : List (List Analysis)) (st : SysState),
      (bs.foldl (fun s b => (addInvoiceAnalysisToVectorDb (embedOk e) s b).1) st).mem =
        ⟨st.mem.index ++ bs.flatten.map (fun a => e (textToEmbed a)),
         st.mem.metadata ++ bs.flatten.map metaOfAnalysis⟩
  | [], st => by simp
  | b :: bs, st => by
    rw [List.foldl_cons, foldAdd_mem e bs]
    unfold addInvoiceAnalysisToVectorDb
    rw [addLoop_ok]
    simp [List.append_assoc]

theorem addLoop_err (e : String → Except String (List ℤ)) :
    ∀ (as : List Analysis) (st : VectorStore) (msg : String),
      (addLoop e st as).2 = some msg →
      ∃ pre bad rest, as = pre ++ bad :: rest ∧
        (e (textToEmbed bad)).isOk = false ∧
        (∀ a ∈ pre, (e (textToEmbed a)).isOk = true) ∧
        (addLoop e st as).1.metadata = st.metadata ++ pre.map metaOfAnalysis ∧
        (addLoop e st as).1.index.length = st.index.length + pre.length
  | [], st, msg => by simp [addLoop]
  | a :: as, st, msg => by
    intro h
    rw [addLoop] at h ⊢
    cases he : e (textToEmbed a) with
    | error m =>
      exact ⟨[], a, as, by simp, by rw [he]; rfl, by simp, by simp, by simp⟩
    | ok v =>
      rw [he] at h
      dsimp only at h ⊢
      obtain ⟨pre, bad, rest, heq, hbad, hpre, hmeta, hidx⟩ :=
        addLoop_err e as ⟨st.index ++ [v], st.metadata ++ [metaOfAnalysis a]⟩ msg h
      refine ⟨a :: pre, bad, rest, by rw [heq]; rfl, hbad, ?hp, ?hm, ?hi⟩
      · intro x hx
        rcases List.mem_cons.mp hx with rfl | hx2
        · rw [he]; rfl
        · exact hpre x hx2
      · rw [hmeta]
        simp [List.append_assoc]
      · rw [hidx]
        simp
        omega


/-- C2: after every sequence of successful append calls the index and the
metadata store have equal length; the metadata sequence is exactly the
appended records in order (append-only, no reordering or deletion); the
vector at position i is the embedding of
`full_text + "\nStatus: " + status + "\nReason: " + reason` where status
and reason are those of the metadata record at position i; and each
single append call extends both sequences purely by appending. -/
theorem c2_positional_invariant (e : String → List ℤ) (batches : List (List Analysis)) :
    (runAppends e batches).mem.index.length = (runAppends e batches).mem.metadata.length ∧
    (runAppends e batches).mem.metadata = batches.flatten.map metaOfAnalysis ∧
    (∀ i, i < (runAppends e batches).mem.index.length →
      (runAppends e batches).mem.index.getD i [] =
        e ((batches.flatten.getD i default).full_text ++ ("\nStatus: ") ++
            ((((runAppends e batches).mem.metadata.getD i []).lookup ("status")).getD ("")) ++
            ("\nReason: ") ++
            ((((runAppends e batches).mem.metadata.getD i []).lookup ("reason")).getD ("")))) ∧
    (∀ (st : SysState) (b : List Analysis),
      ((addInvoiceAnalysisToVectorDb (embedOk e) st b).1).mem.metadata =
          st.mem.metadata ++ b.map metaOfAnalysis ∧
        ((addInvoiceAnalysisToVectorDb (embedOk e) st b).1).mem.index =
          st.mem.index ++ b.map fun a => e (textToEmbed a)) := by
  have hmem : (runAppends e batches).mem =
      ⟨batches.flatten.map (fun a => e (textToEmbed a)),
       batches.flatten.map metaOfAnalysis⟩ := by
    unfold runAppends
    rw [foldAdd_mem]
    simp [emptySys]
  refine ⟨?l, ?m, ?v, ?app⟩
  · rw [hmem]
    simp only [List.length_map]
  · rw [hmem]
  · intro i hi
    rw [hmem] at hi ⊢
    simp only [List.length_map] at hi
    have hi1 : i < (batches.flatten.map fun a => e (textToEmbed a)).length := by
      simpa only [List.length_map] using hi
    have hi2 : i < (batches.flatten.map metaOfAnalysis).length := by
      simpa only [List.length_map] using hi
    rw [List.getD_eq_getElem _ _ hi1, List.getD_eq_getElem _ _ hi2,
      List.getElem_map, List.getElem_map, List.getD_eq_getElem _ _ hi]
    simp [textToEmbed, metaOfAnalysis, List.lookup]
  · intro st b
    unfold addInvoiceAnalysisToVectorDb
    rw [addLoop_ok]
    exact ⟨rfl, rfl⟩

/-- Witness for C2 at a concrete embedder and batch sequence. -/
theorem c2_positional_invariant_witness :
    0 < (runAppends (fun _ => [7])
          [[⟨("i1"), ("S1"), ("R1"), ("E1"), ("D1"), ("T1")⟩]]).mem.index.length ∧
    (runAppends (fun _ => [7])
        [[⟨("i1"), ("S1"), ("R1"), ("E1"), ("D1"), ("T1")⟩]]).mem.index.getD 0 [] = [7] :=
  ⟨by decide,
   ((c2_positional_invariant (fun _ => [7])
      [[⟨("i1"), ("S1"), ("R1"), ("E1"), ("D1"), ("T1")⟩]]).2.2.1 0 (by decide)).trans rfl⟩

/-- C3 is refuted: when embedding the second record of a batch fails, the
call aborts and the persisted state is untouched, but the first record of
the batch remains visible in the in-memory store, contradicting the
claimed all-or-nothing behavior for the in-memory state. -/
theorem c3_counterexample :
    (addInvoiceAnalysisToVectorDb
        (fun s => if s = ("T2\nStatus: S\nReason: R") then Except.error ("boom")
          else Except.ok [0])
        emptySys
        [⟨("i1"), ("S"), ("R"), ("E"), ("D"), ("T1")⟩,
         ⟨("i2"), ("S"), ("R"), ("E"), ("D"), ("T2")⟩]).2 = some ("boom") ∧
    (addInvoiceAnalysisToVectorDb
        (fun s => if s = ("T2\nStatus: S\nReason: R") then Except.error ("boom")
          else Except.ok [0])
        emptySys
        [⟨("i1"), ("S"), ("R"), ("E"), ("D"), ("T1")⟩,
         ⟨("i2"), ("S"), ("R"), ("E"), ("D"), ("T2")⟩]).1.mem.metadata ≠ [] ∧
    (addInvoiceAnalysisToVectorDb
        (fun s => if s = ("T2\nStatus: S\nReason: R") then Except.error ("boom")
          else Except.ok [0])
        emptySys
        [⟨("i1"), ("S"), ("R"), ("E"), ("D"), ("T1")⟩,
         ⟨("i2"), ("S"), ("R"), ("E"), ("D"), ("T2")⟩]).1.disk = ⟨[], []⟩ :=
  ⟨by decide, by decide, by decide⟩

/-- C3 amended: an embedding failure aborts the append call with the error
and leaves the persisted state unchanged, but the in-memory index and
metadata retain exactly the records of the batch preceding the failing
one (still in lockstep lengthwise). -/
theorem c3_abort_amended (e : String → Except String (List ℤ)) (st : SysState)
    (as : List Analysis) (msg : String)
    (h : (addInvoiceAnalysisToVectorDb e st as).2 = some msg) :
    (addInvoiceAnalysisToVectorDb e st as).1.disk = st.disk ∧
    ∃ pre bad rest, as = pre ++ bad :: rest ∧
      (e (textToEmbed bad)).isOk = false ∧
      (∀ a ∈ pre, (e (textToEmbed a)).isOk = true) ∧
      (addInvoiceAnalysisToVectorDb e st as).1.mem.metadata =
        st.mem.metadata ++ pre.map metaOfAnalysis ∧
      (addInvoiceAnalysisToVectorDb e st as).1.mem.index.length =
        st.mem.index.length + pre.length := by
  unfold addInvoiceAnalysisToVectorDb at h ⊢
  cases hres : addLoop e st.mem as with
  | mk mem err =>
    cases err with
    | none =>
      rw [hres] at h
      simp at h
    | some m =>
      rw [hres] at h
      dsimp only at h ⊢
      have herr : (addLoop e st.mem as).2 = some m := by rw [hres]
      obtain ⟨pre, bad, rest, heq, hbad, hpre, hmeta, hidx⟩ :=
        addLoop_err e as st.mem m herr
      rw [hres] at hmeta hidx
      exact ⟨rfl, pre, bad, rest, heq, hbad, hpre, hmeta, hidx⟩

/-- Witness for the amended C3 at a concrete failing batch. -/
theorem c3_abort_amended_witness :
    (addInvoiceAnalysisToVectorDb
        (fun s => if s = ("U2\nStatus: S\nReason: R") then Except.error ("bad")
          else Except.ok [1])
        emptySys
        [⟨("u1"), ("S"), ("R"), ("E"), ("D"), ("U1")⟩,
         ⟨("u2"), ("S"), ("R"), ("E"), ("D"), ("U2")⟩]).1.disk = emptySys.disk :=
  (c3_abort_amended
      (fun s => if s = ("U2\nStatus: S\nReason: R") then Except.error ("bad")
        else Except.ok [1])
      emptySys
      [⟨("u1"), ("S"), ("R"), ("E"), ("D"), ("U1")⟩,
       ⟨("u2"), ("S"), ("R"), ("E"), ("D"), ("U2")⟩] ("bad") (by decide)).1



end InvStore

namespace InvStore

theorem findDateFrom_isSome : ∀ cs : List Char,
    (findDateFrom cs).isSome = cs.tails.any fun t => (matchDateAt t).isSome
  | [] => by decide
  | c :: cs => by
    rw [List.tails_cons, List.any_cons]
    cases hd : matchDateAt (c :: cs) with
    | some d => simp [findDateFrom, hd]
    | none => simp [findDateFrom, hd, findDateFrom_isSome cs]

theorem findDateFrom_leftmost : ∀ (cs : List Char) (d : String),
    findDateFrom cs = some d →
    ∃ i, matchDateAt (cs.drop i) = some d ∧ ∀ j, j < i → matchDateAt (cs.drop j) = none
  | [], d => by simp [findDateFrom]
  | c :: cs, d => by
    intro h
    simp only [findDateFrom] at h
    cases hd : matchDateAt (c :: cs) with
    | some d2 =>
      rw [hd] at h
      dsimp only at h
      obtain rfl : d2 = d := by simpa using h
      refine ⟨0, by simpa using hd, ?j⟩
      intro j hj
      exact absurd hj (Nat.not_lt_zero j)
    | none =>
      rw [hd] at h
      dsimp only at h
      obtain ⟨i, hi, hj⟩ := findDateFrom_leftmost cs d h
      refine ⟨i + 1, ?m, ?j2⟩
      · rw [List.drop_succ_cons]
        exact hi
      · intro j hj2
        cases j with
        | zero => exact hd
        | succ j2 =>
          rw [List.drop_succ_cons]
          exact hj j2 (by omega)




/-- C8 is refuted: the two separator classes of the date regex are matched
independently, so the mixed-separator token "2024-05/01" — which is in
neither of the two same-separator forms — still produces a date filter. -/
theorem c8_counterexample :
    specHasSameStyleDate ("2024-05/01") = false ∧
    (extractMetadataFilters ("2024-05/01")).lookup ("date") = some ("2024-05/01") :=
  ⟨by decide, by decide⟩

/-- C8 amended: the date key is present iff the query contains, at some
position, a token of shape four digits, a separator (dash or slash), two
digits, a separator (chosen independently), two digits; the value is the
leftmost such token. -/
theorem c8_date_amended (q : String) :
    ((extractMetadataFilters q).lookup ("date")).isSome =
      (q.toList.tails.any fun t => (matchDateAt t).isSome) ∧
    ∀ d, (extractMetadataFilters q).lookup ("date") = some d →
      ∃ i, matchDateAt (q.toList.drop i) = some d ∧
        ∀ j, j < i → matchDateAt (q.toList.drop j) = none := by
  rw [lookup_extract_date]
  unfold findDate
  exact ⟨findDateFrom_isSome q.toList, fun d h => findDateFrom_leftmost q.toList d h⟩

/-- Witness for the amended C8 at a concrete query. -/
theorem c8_date_amended_witness :
    ∃ i, matchDateAt (("on 2024/05/01").toList.drop i) = some ("2024/05/01") ∧
      ∀ j, j < i → matchDateAt (("on 2024/05/01").toList.drop j) = none :=
  (c8_date_amended ("on 2024/05/01")).2 ("2024/05/01") (by decide)

/-- C10: an LLM output that parses as JSON but lacks the expected keys is
still a successful analysis — status and reason default to the empty
string, employee_name to the caller-supplied form value — and passes the
success filter that selects the records to index; a record carries an
error key exactly when the invoice text is an extraction-error sentinel,
the LLM output is an error sentinel, or JSON parsing fails. -/
theorem c10_json_defaults (analyze : String → String → String → String)
    (parseJson : String → Option (List (String × String)))
    (todayStr policy fname text emp : String) :
    (pyStartsWith text ("[ERROR") = false →
      pyStartsWith (analyze policy text emp) ("[ERROR") = false →
      ∀ obj, parseJson (cleanAnalysis (analyze policy text emp)) = some obj →
        processInvoice analyze parseJson todayStr policy fname text emp =
          [(("invoice_id"), fname),
           (("status"), ((obj.lookup ("status")).getD (""))),
           (("reason"), ((obj.lookup ("reason")).getD (""))),
           (("employee_name"), ((obj.lookup ("employee_name")).getD emp)),
           (("date"), todayStr),
           (("full_text"), text)] ∧
        isSuccessful (processInvoice analyze parseJson todayStr policy fname text emp)
          = true) ∧
    (((processInvoice analyze parseJson todayStr policy fname text emp).lookup
        ("error")).isSome = true ↔
      (pyStartsWith text ("[ERROR") = true ∨
       pyStartsWith (analyze policy text emp) ("[ERROR") = true ∨
       parseJson (cleanAnalysis (analyze policy text emp)) = none)) := by
  constructor
  · intro h1 h2 obj hobj
    constructor
    · unfold processInvoice
      rw [if_neg (by simp [h1]), if_neg (by simp [h2]), hobj]
    · unfold isSuccessful processInvoice
      rw [if_neg (by simp [h1]), if_neg (by simp [h2]), hobj]
      simp [List.lookup]
  · unfold processInvoice
    by_cases h1 : pyStartsWith text ("[ERROR") = true
    · rw [if_pos h1]
      simp [List.lookup, h1]
    · rw [if_neg h1]
      by_cases h2 : pyStartsWith (analyze policy text emp) ("[ERROR") = true
      · rw [if_pos h2]
        simp [List.lookup, h1, h2]
      · rw [if_neg h2]
        cases hp : parseJson (cleanAnalysis (analyze policy text emp)) with
        | some obj => simp [List.lookup, h1, h2, hp]
        | none => simp [List.lookup, h1, h2, hp]

/-- Witness for C10: a parse result with no keys still yields a success
record with defaulted fields. -/
theorem c10_json_defaults_witness :
    processInvoice (fun _ _ _ => ("ok")) (fun _ => some ([] : List (String × String)))
        ("2025-01-01") ("P") ("f.pdf") ("invoice text") ("Alice") =
      [(("invoice_id"), ("f.pdf")), (("status"), ("")), (("reason"), ("")),
       (("employee_name"), ("Alice")), (("date"), ("2025-01-01")),
       (("full_text"), ("invoice text"))] ∧
    isSuccessful (processInvoice (fun _ _ _ => ("ok"))
        (fun _ => some ([] : List (String × String))) ("2025-01-01") ("P") ("f.pdf")
        ("invoice text") ("Alice")) = true :=
  (c10_json_defaults (fun _ _ _ => ("ok")) (fun _ => some ([] : List (String × String)))
      ("2025-01-01") ("P") ("f.pdf") ("invoice text") ("Alice")).1
    (by decide) (by decide) [] rfl

/-- C1 is refuted: with a store whose only record does not contain the
filter key at all, a filter on that key still returns the record — a
filter whose key exists in no record does not yield "no matches". -/
theorem c1_counterexample :
    ((⟨[[0]], [[(("invoice_id"), ("a"))]]⟩ : VectorStore).metadata.all
        fun m => (m.lookup ("status")).isNone) = true ∧
    searchInvoices (fun _ => [0]) ⟨[[0]], [[(("invoice_id"), ("a"))]]⟩ ("q") 5
        [(("status"), ("x"))] = [(0, [(("invoice_id"), ("a"))])] :=
  ⟨by decide, by decide⟩

/-- C1 amended: a record matches iff for every filter pair whose key is
present in the record, the filter value is a case-insensitive substring of
the record's field value — a pair whose key is absent imposes no
constraint — and every record returned by search satisfies exactly this
conditional property. -/
theorem c1_filter_amended (e : String → List ℤ) (st : VectorStore) (q : String)
    (k : Nat) (f : List (String × String)) :
    (∀ m : Meta, matchMeta f m = true ↔
        ∀ kv ∈ f, ∀ v, m.lookup kv.1 = some v →
          containsSub (strLower v) (strLower kv.2) = true) ∧
    (∀ p ∈ searchInvoices e st q k f, ∀ kv ∈ f, ∀ v, p.2.lookup kv.1 = some v →
        containsSub (strLower v) (strLower kv.2) = true) := by
  have hchar : ∀ m : Meta, matchMeta f m = true ↔
      ∀ kv ∈ f, ∀ v, m.lookup kv.1 = some v →
        containsSub (strLower v) (strLower kv.2) = true := by
    intro m
    unfold matchMeta
    rw [List.all_eq_true]
    constructor
    · intro h kv hkv v hv
      have h2 : (match m.lookup kv.1 with
          | none => true
          | some v => containsSub (strLower v) (strLower kv.2)) = true := h kv hkv
      rw [hv] at h2
      exact h2
    · intro h kv hkv
      show (match m.lookup kv.1 with
          | none => true
          | some v => containsSub (strLower v) (strLower kv.2)) = true
      cases hl : m.lookup kv.1 with
      | none => rfl
      | some v => exact h kv hkv v hl
  refine ⟨hchar, ?r⟩
  intro p hp kv hkv v hv
  unfold searchInvoices at hp
  obtain ⟨a, ha, rfl⟩ := List.mem_map.mp hp
  have hm := (mem_filteredIndices (searchIndices_mem ha).1).2
  exact (hchar _).mp hm kv hkv v hv

/-- Witness for the amended C1 at a concrete store and filter. -/
theorem c1_filter_amended_witness :
    containsSub (strLower ("Declined")) (strLower ("declined")) = true :=
  (c1_filter_amended (fun _ => [0]) ⟨[[0]], [[(("status"), ("Declined"))]]⟩ ("q") 5
      [(("status"), ("declined"))]).2 (0, [(("status"), ("Declined"))]) (by decide)
    (("status"), ("declined")) (by decide) ("Declined") (by decide)

/-- C4: the status keywords are checked in the fixed dict order with the
first match winning, so any query containing "reimbursed" (and not
"declined") case-insensitively maps to "Fully Reimbursed"; in particular
"fully reimbursed expenses" does. -/
theorem c4_status_priority :
    (∀ q : String, containsSub (strLower q) ("reimbursed") = true →
        containsSub (strLower q) ("declined") = false →
        (extractMetadataFilters q).lookup ("status") = some ("Fully Reimbursed")) ∧
    (extractMetadataFilters ("fully reimbursed expenses")).lookup ("status")
      = some ("Fully Reimbursed") := by
  constructor
  · intro q h1 h2
    rw [lookup_extract_status]
    unfold findStatus statusKeywords
    rw [List.find?_cons_of_neg, List.find?_cons_of_pos]
    · rfl
    · simpa using h1
    · simpa using h2
  · decide

/-- Witness for C4 at a concrete query. -/
theorem c4_status_priority_witness :
    containsSub (strLower ("Reimbursed travel")) ("reimbursed") = true ∧
    containsSub (strLower ("Reimbursed travel")) ("declined") = false ∧
    (extractMetadataFilters ("Reimbursed travel")).lookup ("status")
      = some ("Fully Reimbursed") :=
  ⟨by decide, by decide,
    c4_status_priority.1 ("Reimbursed travel") (by decide) (by decide)⟩

/-- C5: search results are ordered ascending by squared Euclidean distance
between the query embedding and the record's stored embedding, with ties
broken by the record's insertion position; the returned pairs are exactly
the scored real indices decorated with their metadata records. -/
theorem c5_ordering (e : String → List ℤ) (st : VectorStore) (q : String)
    (k : Nat) (f : List (String × String))
    (_h1 : st.metadata ≠ []) (_h2 : ∃ m ∈ st.metadata, matchMeta f m = true) :
    (searchIndices e st q k f).Pairwise
      (fun x y => x.1 < y.1 ∨ (x.1 = y.1 ∧ x.2 < y.2)) ∧
    (∀ p ∈ searchIndices e st q k f,
      p.2 < st.metadata.length ∧ p.1 = sqDist (e q) (st.index.getD p.2 [])) ∧
    searchInvoices e st q k f =
      (searchIndices e st q k f).map fun p => (p.1, st.metadata.getD p.2 []) :=
  ⟨searchIndices_pairwise e st q k f,
   fun _ hp => ⟨(mem_filteredIndices (searchIndices_mem hp).1).1,
     (searchIndices_mem hp).2⟩,
   rfl⟩

/-- Witness for C5 at a concrete store with two matching records. -/
theorem c5_ordering_witness :
    (searchIndices (fun _ => [0]) ⟨[[2], [1]], [[(("k"), ("v"))], [(("k"), ("v"))]]⟩
        ("q") 5 []).Pairwise
      (fun x y => x.1 < y.1 ∨ (x.1 = y.1 ∧ x.2 < y.2)) :=
  (c5_ordering (fun _ => [0]) ⟨[[2], [1]], [[(("k"), ("v"))], [(("k"), ("v"))]]⟩
      ("q") 5 [] (by decide) ⟨[(("k"), ("v"))], by decide, by decide⟩).1

/-- C6: the number of results is at most `min top_k (matching records)`,
with equality as soon as at least one record matches. -/
theorem c6_topk_bound (e : String → List ℤ) (st : VectorStore) (q : String)
    (k : Nat) (f : List (String × String)) :
    (searchInvoices e st q k f).length ≤ min k (matchCount st f) ∧
    (0 < matchCount st f →
      (searchInvoices e st q k f).length = min k (matchCount st f)) := by
  have hlen : (searchInvoices e st q k f).length = (searchIndices e st q k f).length :=
    List.length_map _ _
  by_cases hm : st.metadata.length = 0
  · have hmeta : st.metadata = [] := List.length_eq_zero.mp hm
    have hmc : matchCount st f = 0 := by
      unfold matchCount
      rw [hmeta]
      rfl
    have hz : (searchIndices e st q k f).length = 0 := by
      unfold searchIndices
      rw [if_pos hm]
      rfl
    constructor
    · rw [hlen, hz]
      exact Nat.zero_le _
    · intro hpos
      rw [hmc] at hpos
      omega
  · by_cases hfi : (filteredIndicesOf st f).isEmpty = true
    · have hmc : matchCount st f = 0 := by
        rw [← length_filteredIndices, List.isEmpty_iff.mp hfi]
        rfl
      have hz : (searchIndices e st q k f).length = 0 := by
        unfold searchIndices
        rw [if_neg hm, if_pos hfi]
        rfl
      constructor
      · rw [hlen, hz]
        exact Nat.zero_le _
      · intro hpos
        rw [hmc] at hpos
        omega
    · have hky : (searchIndices e st q k f).length = min k (matchCount st f) := by
        unfold searchIndices
        rw [if_neg hm, if_neg hfi]
        rw [List.length_map, knnSearch_length, List.length_map, length_filteredIndices]
        omega
      constructor
      · rw [hlen, hky]
      · intro hpos
        rw [hlen, hky]

/-- Witness for C6 at a store with one matching record. -/
theorem c6_topk_bound_witness :
    0 < matchCount ⟨[[0]], [[(("s"), ("x"))]]⟩ [] ∧
    (searchInvoices (fun _ => [0]) ⟨[[0]], [[(("s"), ("x"))]]⟩ ("q") 5 []).length =
      min 5 (matchCount ⟨[[0]], [[(("s"), ("x"))]]⟩ []) :=
  ⟨by decide,
    (c6_topk_bound (fun _ => [0]) ⟨[[0]], [[(("s"), ("x"))]]⟩ ("q") 5 []).2 (by decide)⟩

/-- C7: search returns the empty sequence (as a value, not an error) on an
empty store, and on a non-empty store in which no record matches. -/
theorem c7_empty_results (e : String → List ℤ) (st : VectorStore) (q : String)
    (k : Nat) (f : List (String × String)) :
    (st.metadata = [] → searchInvoices e st q k f = []) ∧
    ((∀ m ∈ st.metadata, matchMeta f m = false) → searchInvoices e st q k f = []) := by
  constructor
  · intro h
    simp [searchInvoices, searchIndices, h]
  · intro hall
    by_cases hm : st.metadata = []
    · simp [searchInvoices, searchIndices, hm]
    · cases f with
      | nil =>
        obtain ⟨m0, hm0⟩ := List.exists_mem_of_ne_nil st.metadata hm
        have hmm := hall m0 hm0
        rw [matchMeta_nil] at hmm
        exact absurd hmm (by simp)
      | cons kv f2 =>
        have hnil : (st.metadata.enum.filter fun p => matchMeta (kv :: f2) p.2) = [] := by
          rw [List.filter_eq_nil_iff]
          intro p hp
          simp [hall p.2 (snd_mem_of_mem_enum hp)]
        have hfi : filteredIndicesOf st (kv :: f2) = [] := by
          unfold filteredIndicesOf
          simp [hnil]
        simp [searchInvoices, searchIndices, hfi]

/-- Witness for C7: a store with one Declined record and a filter asking
for a different status yields no results. -/
theorem c7_empty_results_witness :
    searchInvoices (fun _ => [0]) ⟨[[0]], [[(("status"), ("Declined"))]]⟩ ("q") 5
      [(("status"), ("reimbursed"))] = [] :=
  (c7_empty_results (fun _ => [0]) ⟨[[0]], [[(("status"), ("Declined"))]]⟩ ("q") 5
      [(("status"), ("reimbursed"))]).2 (by decide)

/-- C9: a record in which a filter key is absent satisfies that
constraint, and filters none of whose keys occur in any record leave the
search result identical to the unfiltered search. -/
theorem c9_absent_keys (e : String → List ℤ) (st : VectorStore) (q : String)
    (k : Nat) (f : List (String × String)) :
    (∀ m : Meta, (∀ kv ∈ f, m.lookup kv.1 = none) → matchMeta f m = true) ∧
    ((∀ m ∈ st.metadata, ∀ kv ∈ f, m.lookup kv.1 = none) →
      searchInvoices e st q k f = searchInvoices e st q k []) := by
  constructor
  · exact fun m hm => matchMeta_of_absent hm
  · intro hall
    have hfi : filteredIndicesOf st f = filteredIndicesOf st [] := by
      cases f with
      | nil => rfl
      | cons kv f2 =>
        unfold filteredIndicesOf
        simp only [List.isEmpty_cons, List.isEmpty_nil, if_false, if_true]
        rw [List.filter_eq_self.mpr]
        · exact List.enum_map_fst st.metadata
        · intro p hp
          exact matchMeta_of_absent
            (fun kv2 hkv2 => hall p.2 (snd_mem_of_mem_enum hp) kv2 hkv2)
    unfold searchInvoices searchIndices
    rw [hfi]

/-- Witness for C9: a filter key outside the record schema leaves the
result identical to the unfiltered search. -/
theorem c9_absent_keys_witness :
    searchInvoices (fun _ => [0]) ⟨[[0]], [[(("invoice_id"), ("a"))]]⟩ ("q") 3
        [(("zz"), ("v"))] =
      searchInvoices (fun _ => [0]) ⟨[[0]], [[(("invoice_id"), ("a"))]]⟩ ("q") 3 [] :=
  (c9_absent_keys (fun _ => [0]) ⟨[[0]], [[(("invoice_id"), ("a"))]]⟩ ("q") 3
      [(("zz"), ("v"))]).2 (by decide)

end InvStore
